import Mathlib

/-!
Verification of the Kepler orbital-state evaluator in
`src/scripts/angular_momentum_conservation_animation.py`.

The script solves Kepler's equation `M = E - e·sin E` by Newton–Raphson
iteration (initial guess `E₀ = M`, at most 100 steps, early exit when the
step size drops below a tolerance), then converts the eccentric anomaly
`E` into the focus-centred position `(a(cos E - e), b sin E)` and the true
anomaly `θ = 2·atan2(√(1+e)·sin(E/2), √(1-e)·cos(E/2))`.

The embedding below models the floating-point program over `ℝ`:
machine arithmetic is idealised as real arithmetic, `np.sin`/`np.cos`
become `Real.sin`/`Real.cos`, and `np.arctan2 y x` becomes the argument
of the complex number `x + y·i`.  The iteration is embedded with an
explicit fuel argument equal to the source's loop bound, and the loop
additionally reports whether it exited through the early-convergence
branch (the Python function's control flow, made observable).
-/

namespace Kepler

noncomputable section

open Real

/-- One Newton–Raphson update for `f(E) = E - e·sin E - M`,
`E ↦ E - f(E)/f'(E)` with `f'(E) = 1 - e·cos E`; the body of the
`for` loop in `mean_anomaly_to_eccentric_anomaly`. -/
def newtonStep (e M E : ℝ) : ℝ :=
  E - (E - e * Real.sin E - M) / (1 - e * Real.cos E)

/-- The `for _ in range(100)` loop of `mean_anomaly_to_eccentric_anomaly`,
with explicit fuel.  Returns the final iterate together with a Boolean
recording whether the loop exited through the `abs(E_new - E) < tol`
branch (`true`) or by exhausting its iterations (`false`). -/
def keplerLoopP (e M tol : ℝ) : ℕ → ℝ → ℝ × Bool
  | 0, E => (E, false)
  | n + 1, E =>
    let E1 := newtonStep e M E
    if |E1 - E| < tol then (E1, true) else keplerLoopP e M tol n E1

/-- `mean_anomaly_to_eccentric_anomaly(M, e, tol)`: Newton iteration
starting from `E = M`, run for at most 100 steps. -/
def mean_anomaly_to_eccentric_anomaly (M e tol : ℝ) : ℝ :=
  (keplerLoopP e M tol 100 M).1

/-- The source's default tolerance `tol=1e-8`. -/
def tolDefault : ℝ := 1e-8

/-- The orbit parameters fixed at the top of the script:
eccentricity `e`, semi-major axis `a`, period `T`. -/
structure OrbitParameters where
  e : ℝ
  a : ℝ
  T : ℝ

/-- Derived semi-minor axis `b = a * np.sqrt(1 - e**2)`. -/
def bOf (p : OrbitParameters) : ℝ := p.a * Real.sqrt (1 - p.e ^ 2)

/-- Derived focal distance `c = a * e`. -/
def cOf (p : OrbitParameters) : ℝ := p.a * p.e

/-- Mean anomaly `M = 2 * np.pi * t / T`. -/
def meanAnomaly (p : OrbitParameters) (t : ℝ) : ℝ :=
  2 * Real.pi * t / p.T

/-- `np.arctan2 y x`, embedded as the principal argument of `x + y·i`
(range `(-π, π]`, and `atan2 0 0 = 0`, matching numpy). -/
def atan2 (y x : ℝ) : ℝ := Complex.arg ⟨x, y⟩

/-- `get_position_at_time(t)`: focus-centred position
`(a·(cos E - e), b·sin E)` at time `t`. -/
def get_position_at_time (p : OrbitParameters) (t : ℝ) : ℝ × ℝ :=
  let M := meanAnomaly p t
  let E := mean_anomaly_to_eccentric_anomaly M p.e tolDefault
  (p.a * (Real.cos E - p.e), bOf p * Real.sin E)

/-- `get_true_anomaly_at_time(t)`: true anomaly
`θ = 2·atan2(√(1+e)·sin(E/2), √(1-e)·cos(E/2))` at time `t`. -/
def get_true_anomaly_at_time (p : OrbitParameters) (t : ℝ) : ℝ :=
  let M := meanAnomaly p t
  let E := mean_anomaly_to_eccentric_anomaly M p.e tolDefault
  2 * atan2 (Real.sqrt (1 + p.e) * Real.sin (E / 2))
      (Real.sqrt (1 - p.e) * Real.cos (E / 2))

/-- The concrete parameters of the script: `e = 0.7`, `a = 4.0`, `T = 8.0`. -/
def scriptParams : OrbitParameters := ⟨0.7, 4.0, 8.0⟩

/-- The pure (never-stopping) Newton iterate sequence: `newtonIter e M n`
is the value of `E` after `n` updates starting from the initial guess `M`. -/
def newtonIter (e M : ℝ) : ℕ → ℝ
  | 0 => M
  | n + 1 => newtonStep e M (newtonIter e M n)

/-- `hits e M tol k` holds when the `k`-th Newton update (0-indexed) moves
the iterate by less than `tol`, i.e. the loop's early-exit test fires there. -/
def hits (e M tol : ℝ) (k : ℕ) : Prop :=
  |newtonIter e M (k + 1) - newtonIter e M k| < tol

/-- Number of Newton updates the loop actually performs (mirrors
`keplerLoopP` step for step). -/
def keplerCount (e M tol : ℝ) : ℕ → ℝ → ℕ
  | 0, _ => 0
  | n + 1, E =>
    let E1 := newtonStep e M E
    if |E1 - E| < tol then 1 else 1 + keplerCount e M tol n E1

/-- Guarded variant of the Newton update: signals `none` instead of
dividing when the denominator `1 - e·cos E` is zero. -/
def newtonStepG (e M E : ℝ) : Option ℝ :=
  if (1 - e * Real.cos E) = 0 then none
  else some (E - (E - e * Real.sin E - M) / (1 - e * Real.cos E))

/-- Guarded variant of the iteration loop, propagating a division error. -/
def keplerLoopG (e M tol : ℝ) : ℕ → ℝ → Option (ℝ × Bool)
  | 0, E => some (E, false)
  | n + 1, E =>
    match newtonStepG e M E with
    | none => none
    | some E1 => if |E1 - E| < tol then some (E1, true) else keplerLoopG e M tol n E1

/-! ### Basic unfolding lemmas -/

theorem keplerLoopP_zero (e M tol E : ℝ) : keplerLoopP e M tol 0 E = (E, false) := rfl

theorem keplerLoopP_succ (e M tol E : ℝ) (n : ℕ) :
    keplerLoopP e M tol (n + 1) E =
      if |newtonStep e M E - E| < tol then (newtonStep e M E, true)
      else keplerLoopP e M tol n (newtonStep e M E) := rfl

theorem keplerCount_succ (e M tol E : ℝ) (n : ℕ) :
    keplerCount e M tol (n + 1) E =
      if |newtonStep e M E - E| < tol then 1
      else 1 + keplerCount e M tol n (newtonStep e M E) := rfl

theorem newtonIter_succ (e M : ℝ) (n : ℕ) :
    newtonIter e M (n + 1) = newtonStep e M (newtonIter e M n) := rfl

/-! ### Characterisation of the loop in terms of the iterate sequence -/

theorem loop_no_hit (e M tol : ℝ) :
    ∀ n j, (∀ i, j ≤ i → i < j + n → ¬ hits e M tol i) →
      keplerLoopP e M tol n (newtonIter e M j) = (newtonIter e M (j + n), false) := by
  intro n
  induction n with
  | zero => intro j _; simp [keplerLoopP]
  | succ n ih =>
    intro j h
    rw [keplerLoopP_succ, ← newtonIter_succ]
    have hj : ¬ hits e M tol j := h j le_rfl (by omega)
    simp only [hits] at hj
    rw [if_neg hj]
    have := ih (j + 1) (fun i h1 h2 => h i (by omega) (by omega))
    rw [this]
    congr 2
    omega

theorem loop_hit (e M tol : ℝ) :
    ∀ n j k, j ≤ k → k < j + n → (∀ i, j ≤ i → i < k → ¬ hits e M tol i) →
      hits e M tol k →
      keplerLoopP e M tol n (newtonIter e M j) = (newtonIter e M (k + 1), true) := by
  intro n
  induction n with
  | zero => intro j k h1 h2 _ _; omega
  | succ n ih =>
    intro j k h1 h2 hmin hk
    rw [keplerLoopP_succ, ← newtonIter_succ]
    rcases Nat.eq_or_lt_of_le h1 with rfl | hjk
    · have hk' : |newtonIter e M (j + 1) - newtonIter e M j| < tol := hk
      rw [if_pos hk']
    · have hj : ¬ hits e M tol j := hmin j le_rfl hjk
      simp only [hits] at hj
      rw [if_neg hj]
      exact ih (j + 1) k hjk (by omega) (fun i hi1 hi2 => hmin i (by omega) hi2) hk

theorem keplerCount_le (e M tol : ℝ) : ∀ n E, keplerCount e M tol n E ≤ n := by
  intro n
  induction n with
  | zero => intro E; exact le_rfl
  | succ n ih =>
    intro E
    rw [keplerCount_succ]
    by_cases hc : |newtonStep e M E - E| < tol
    · rw [if_pos hc]; omega
    · rw [if_neg hc]
      have := ih (newtonStep e M E)
      omega

theorem loop_fst_eq_iter_count (e M tol : ℝ) :
    ∀ n j, (keplerLoopP e M tol n (newtonIter e M j)).1 =
      newtonIter e M (j + keplerCount e M tol n (newtonIter e M j)) := by
  intro n
  induction n with
  | zero => intro j; simp [keplerLoopP, keplerCount]
  | succ n ih =>
    intro j
    rw [keplerLoopP_succ, keplerCount_succ, ← newtonIter_succ]
    by_cases hc : |newtonIter e M (j + 1) - newtonIter e M j| < tol
    · rw [if_pos hc, if_pos hc]
    · rw [if_neg hc, if_neg hc]
      rw [ih (j + 1)]
      congr 1
      omega

/-! ### Analytic facts about the Newton update -/

theorem den_pos (e E : ℝ) (he0 : 0 ≤ e) (he1 : e < 1) :
    0 < 1 - e * Real.cos E := by
  have h1 : e * Real.cos E ≤ e * 1 :=
    mul_le_mul_of_nonneg_left (Real.cos_le_one E) he0
  nlinarith

theorem abs_cos_sub_cos_le (x y : ℝ) : |Real.cos x - Real.cos y| ≤ |x - y| := by
  rw [Real.cos_sub_cos, abs_mul, abs_mul]
  have h1 : |Real.sin ((x + y) / 2)| ≤ 1 :=
    abs_le.mpr ⟨Real.neg_one_le_sin _, Real.sin_le_one _⟩
  have h2 : |Real.sin ((x - y) / 2)| ≤ |(x - y) / 2| := Real.abs_sin_le_abs
  have h3 : |(x - y) / 2| = |x - y| / 2 := by
    rw [abs_div, abs_two]
  have h4 : |(-2 : ℝ)| = 2 := by norm_num
  rw [h4]
  calc 2 * |Real.sin ((x + y) / 2)| * |Real.sin ((x - y) / 2)|
      ≤ 2 * 1 * |(x - y) / 2| := by
        apply mul_le_mul _ h2 (abs_nonneg _) (by norm_num)
        exact mul_le_mul_of_nonneg_left h1 (by norm_num)
    _ = |x - y| := by rw [h3]; ring

theorem sin_derivWithin (E u v : ℝ) :
    ∀ x ∈ Set.Icc u v, HasDerivWithinAt (fun y => Real.sin y - y * Real.cos E)
      (Real.cos x - Real.cos E) (Set.Icc u v) x := by
  intro x _
  have h1 : HasDerivAt (fun y => Real.sin y - y * Real.cos E)
      (Real.cos x - 1 * Real.cos E) x :=
    (Real.hasDerivAt_sin x).sub ((hasDerivAt_id x).mul_const (Real.cos E))
  simpa using h1.hasDerivWithinAt

theorem abs_sin_taylor (E d : ℝ) :
    |Real.sin (E + d) - Real.sin E - d * Real.cos E| ≤ d ^ 2 := by
  rcases le_or_lt 0 d with hd | hd
  · have hbound : ∀ x ∈ Set.Ico E (E + d), ‖Real.cos x - Real.cos E‖ ≤ d := by
      intro x hx
      rw [Real.norm_eq_abs]
      have h1 := abs_cos_sub_cos_le x E
      have h2 : |x - E| ≤ d := by
        rw [abs_of_nonneg (by linarith [hx.1])]
        linarith [hx.2]
      linarith
    have h := norm_image_sub_le_of_norm_deriv_le_segment'
      (sin_derivWithin E E (E + d)) hbound (E + d)
      (Set.right_mem_Icc.mpr (by linarith))
    rw [Real.norm_eq_abs] at h
    have h' : |Real.sin (E + d) - (E + d) * Real.cos E
        - (Real.sin E - E * Real.cos E)| ≤ d * (E + d - E) := h
    rw [show Real.sin (E + d) - (E + d) * Real.cos E - (Real.sin E - E * Real.cos E)
        = Real.sin (E + d) - Real.sin E - d * Real.cos E from by ring] at h'
    calc |Real.sin (E + d) - Real.sin E - d * Real.cos E|
        ≤ d * (E + d - E) := h'
      _ = d ^ 2 := by ring
  · have hbound : ∀ x ∈ Set.Ico (E + d) E, ‖Real.cos x - Real.cos E‖ ≤ -d := by
      intro x hx
      rw [Real.norm_eq_abs]
      have h1 := abs_cos_sub_cos_le x E
      have h2 : |x - E| ≤ -d := by
        rw [abs_of_nonpos (by linarith [hx.2])]
        linarith [hx.1]
      linarith
    have h := norm_image_sub_le_of_norm_deriv_le_segment'
      (sin_derivWithin E (E + d) E) hbound E
      (Set.right_mem_Icc.mpr (by linarith))
    rw [Real.norm_eq_abs] at h
    have h' : |Real.sin E - E * Real.cos E
        - (Real.sin (E + d) - (E + d) * Real.cos E)| ≤ -d * (E - (E + d)) := h
    rw [abs_sub_comm] at h'
    rw [show Real.sin (E + d) - (E + d) * Real.cos E - (Real.sin E - E * Real.cos E)
        = Real.sin (E + d) - Real.sin E - d * Real.cos E from by ring] at h'
    calc |Real.sin (E + d) - Real.sin E - d * Real.cos E|
        ≤ -d * (E - (E + d)) := h'
      _ = d ^ 2 := by ring

theorem loopP_converged (e M tol : ℝ) :
    ∀ n E, (keplerLoopP e M tol n E).2 = true →
      ∃ Ep, (keplerLoopP e M tol n E).1 = newtonStep e M Ep ∧
        |newtonStep e M Ep - Ep| < tol := by
  intro n
  induction n with
  | zero => intro E h; simp [keplerLoopP] at h
  | succ n ih =>
    intro E h
    rw [keplerLoopP_succ] at h ⊢
    by_cases hc : |newtonStep e M E - E| < tol
    · rw [if_pos hc] at h ⊢
      exact ⟨E, rfl, hc⟩
    · rw [if_neg hc] at h ⊢
      exact ih (newtonStep e M E) h

theorem newton_residual (e M E : ℝ) (he0 : 0 ≤ e) (he1 : e < 1) :
    |newtonStep e M E - e * Real.sin (newtonStep e M E) - M|
      ≤ e * (newtonStep e M E - E) ^ 2 := by
  have hden : 0 < 1 - e * Real.cos E := den_pos e E he0 he1
  set d := newtonStep e M E - E with hd
  have hnum : E - e * Real.sin E - M = -d * (1 - e * Real.cos E) := by
    rw [hd]
    simp only [newtonStep]
    field_simp
    ring
  have hE' : newtonStep e M E = E + d := by rw [hd]; ring
  have hM : M = E - e * Real.sin E + d * (1 - e * Real.cos E) := by linarith [hnum]
  have key : newtonStep e M E - e * Real.sin (newtonStep e M E) - M
      = -(e * (Real.sin (E + d) - Real.sin E - d * Real.cos E)) := by
    rw [hE', hM]; ring
  rw [key, abs_neg, abs_mul, abs_of_nonneg he0]
  exact mul_le_mul_of_nonneg_left (abs_sin_taylor E d) he0

/-! ### Evaluation at mean anomaly zero -/

theorem meanAnomaly_zero (p : OrbitParameters) : meanAnomaly p 0 = 0 := by
  simp [meanAnomaly]

theorem newtonStep_zero (e : ℝ) : newtonStep e 0 0 = 0 := by
  simp [newtonStep]

theorem loop_at_zero (e tol : ℝ) (htol : 0 < tol) :
    keplerLoopP e 0 tol 100 0 = (0, true) := by
  rw [show (100 : ℕ) = 99 + 1 from rfl, keplerLoopP_succ, newtonStep_zero]
  have h : |(0 : ℝ) - 0| < tol := by simpa using htol
  rw [if_pos h]

/-! ### Claim theorems -/

/-- C1: for eccentricity `e ∈ [0,1)`, period `T > 0` and any time `t`, in
the converging case the eccentric anomaly returned by
`mean_anomaly_to_eccentric_anomaly(M, e)` with `M = 2π·t/T` satisfies
Kepler's equation `M = E - e·sin E` to within the solver's tolerance:
recomputing `E - e·sin E` reproduces `M` within `tol`. -/
theorem kepler_equation_residual (p : OrbitParameters) (t tol : ℝ)
    (he0 : 0 ≤ p.e) (he1 : p.e < 1) (hT : 0 < p.T)
    (htol0 : 0 < tol) (htol1 : tol ≤ 1)
    (hconv : (keplerLoopP p.e (meanAnomaly p t) tol 100 (meanAnomaly p t)).2 = true) :
    |mean_anomaly_to_eccentric_anomaly (meanAnomaly p t) p.e tol
      - p.e * Real.sin (mean_anomaly_to_eccentric_anomaly (meanAnomaly p t) p.e tol)
      - meanAnomaly p t| ≤ tol := by
  obtain ⟨Ep, hfst, hlt⟩ :=
    loopP_converged p.e (meanAnomaly p t) tol 100 (meanAnomaly p t) hconv
  rw [mean_anomaly_to_eccentric_anomaly, hfst]
  have hres := newton_residual p.e (meanAnomaly p t) Ep he0 he1
  have habs : |newtonStep p.e (meanAnomaly p t) Ep - Ep| ≤ tol := le_of_lt hlt
  have hsq : (newtonStep p.e (meanAnomaly p t) Ep - Ep) ^ 2 ≤ tol ^ 2 := by
    rw [← sq_abs]
    exact pow_le_pow_left₀ (abs_nonneg _) habs 2
  calc |newtonStep p.e (meanAnomaly p t) Ep
        - p.e * Real.sin (newtonStep p.e (meanAnomaly p t) Ep) - meanAnomaly p t|
      ≤ p.e * (newtonStep p.e (meanAnomaly p t) Ep - Ep) ^ 2 := hres
    _ ≤ 1 * tol ^ 2 :=
        mul_le_mul (le_of_lt he1) hsq (sq_nonneg _) (by norm_num)
    _ = tol * tol := by ring
    _ ≤ tol * 1 := mul_le_mul_of_nonneg_left htol1 (le_of_lt htol0)
    _ = tol := by ring

/-- Witness for C1: the circular orbit `e = 0`, `a = 1`, `T = 1` at `t = 0`
with the source's tolerance `1e-8` converges, and the theorem applies. -/
theorem kepler_equation_residual_witness :
    (0 : ℝ) ≤ (⟨0, 1, 1⟩ : OrbitParameters).e ∧
    (⟨0, 1, 1⟩ : OrbitParameters).e < 1 ∧
    (0 : ℝ) < (⟨0, 1, 1⟩ : OrbitParameters).T ∧
    (0 : ℝ) < tolDefault ∧ tolDefault ≤ 1 ∧
    (keplerLoopP (⟨0, 1, 1⟩ : OrbitParameters).e
      (meanAnomaly ⟨0, 1, 1⟩ 0) tolDefault 100 (meanAnomaly ⟨0, 1, 1⟩ 0)).2 = true ∧
    |mean_anomaly_to_eccentric_anomaly (meanAnomaly ⟨0, 1, 1⟩ 0)
        (⟨0, 1, 1⟩ : OrbitParameters).e tolDefault
      - (⟨0, 1, 1⟩ : OrbitParameters).e
        * Real.sin (mean_anomaly_to_eccentric_anomaly (meanAnomaly ⟨0, 1, 1⟩ 0)
            (⟨0, 1, 1⟩ : OrbitParameters).e tolDefault)
      - meanAnomaly ⟨0, 1, 1⟩ 0| ≤ tolDefault := by
  have htol : (0 : ℝ) < tolDefault := by norm_num [tolDefault]
  have hM : meanAnomaly (⟨0, 1, 1⟩ : OrbitParameters) 0 = 0 := meanAnomaly_zero _
  have hconv : (keplerLoopP (⟨0, 1, 1⟩ : OrbitParameters).e
      (meanAnomaly ⟨0, 1, 1⟩ 0) tolDefault 100 (meanAnomaly ⟨0, 1, 1⟩ 0)).2 = true := by
    rw [hM]
    rw [loop_at_zero _ _ htol]
  refine ⟨le_rfl, by norm_num, by norm_num, htol, by norm_num [tolDefault], hconv, ?_⟩
  exact kepler_equation_residual ⟨0, 1, 1⟩ 0 tolDefault le_rfl (by norm_num)
    (by norm_num) htol (by norm_num [tolDefault]) hconv

/-- C2: for `e ∈ [0, 0.95]`, `a > 0`, `T > 0` and `t ∈ [0, T)`, the
returned position satisfies the ellipse equation
`((x+c)/a)² + (y/b)² = 1` within tolerance `1e-6`. -/
theorem position_on_ellipse (p : OrbitParameters) (t : ℝ)
    (he0 : 0 ≤ p.e) (he1 : p.e ≤ 0.95) (ha : 0 < p.a) (hT : 0 < p.T)
    (ht0 : 0 ≤ t) (ht1 : t < p.T) :
    |(((get_position_at_time p t).1 + cOf p) / p.a) ^ 2
      + ((get_position_at_time p t).2 / bOf p) ^ 2 - 1| ≤ 1e-6 := by
  set E := mean_anomaly_to_eccentric_anomaly (meanAnomaly p t) p.e tolDefault with hE
  have hx : (get_position_at_time p t).1 = p.a * (Real.cos E - p.e) := rfl
  have hy : (get_position_at_time p t).2 = bOf p * Real.sin E := rfl
  have hs : 0 < Real.sqrt (1 - p.e ^ 2) := Real.sqrt_pos.mpr (by nlinarith)
  have hb : bOf p ≠ 0 := ne_of_gt (mul_pos ha hs)
  have h1 : ((p.a * (Real.cos E - p.e)) + cOf p) / p.a = Real.cos E := by
    rw [cOf]
    field_simp
    ring
  have h2 : bOf p * Real.sin E / bOf p = Real.sin E := by
    field_simp
  rw [hx, hy, h1, h2, Real.cos_sq_add_sin_sq]
  norm_num

/-- Witness for C2: the script's own parameters `e = 0.7`, `a = 4`, `T = 8`
at `t = 0` satisfy every hypothesis, and the ellipse bound follows. -/
theorem position_on_ellipse_witness :
    (0 : ℝ) ≤ scriptParams.e ∧ scriptParams.e ≤ 0.95 ∧ (0 : ℝ) < scriptParams.a ∧
    (0 : ℝ) < scriptParams.T ∧ (0 : ℝ) ≤ 0 ∧ (0 : ℝ) < scriptParams.T ∧
    |(((get_position_at_time scriptParams 0).1 + cOf scriptParams) / scriptParams.a) ^ 2
      + ((get_position_at_time scriptParams 0).2 / bOf scriptParams) ^ 2 - 1| ≤ 1e-6 := by
  refine ⟨by norm_num [scriptParams], by norm_num [scriptParams], by norm_num [scriptParams],
    by norm_num [scriptParams], le_rfl, by norm_num [scriptParams], ?_⟩
  exact position_on_ellipse scriptParams 0 (by norm_num [scriptParams])
    (by norm_num [scriptParams]) (by norm_num [scriptParams]) (by norm_num [scriptParams])
    le_rfl (by norm_num [scriptParams])

/-- C4: at `t = 0` the solver yields `E = 0`, hence position `(a(1-e), 0)`;
with the script's parameters `e = 0.7`, `a = 4.0`, `T = 8.0` the position
is exactly `(1.2, 0)` relative to the focus. -/
theorem position_at_time_zero (p : OrbitParameters)
    (he0 : 0 ≤ p.e) (he1 : p.e < 1) :
    mean_anomaly_to_eccentric_anomaly (meanAnomaly p 0) p.e tolDefault = 0 ∧
    get_position_at_time p 0 = (p.a * (1 - p.e), 0) ∧
    get_position_at_time scriptParams 0 = (1.2, 0) := by
  have hE : ∀ q : OrbitParameters,
      mean_anomaly_to_eccentric_anomaly (meanAnomaly q 0) q.e tolDefault = 0 := by
    intro q
    rw [meanAnomaly_zero, mean_anomaly_to_eccentric_anomaly,
      loop_at_zero _ _ (by norm_num [tolDefault])]
  have hpos : ∀ q : OrbitParameters,
      get_position_at_time q 0 = (q.a * (1 - q.e), 0) := by
    intro q
    simp only [get_position_at_time]
    rw [hE q, Real.cos_zero, Real.sin_zero, mul_zero]
  refine ⟨hE p, hpos p, ?_⟩
  rw [hpos scriptParams]
  norm_num [scriptParams]

/-- Witness for C4: the script's parameters satisfy `0 ≤ e < 1` and the
boundary values follow. -/
theorem position_at_time_zero_witness :
    (0 : ℝ) ≤ scriptParams.e ∧ scriptParams.e < 1 ∧
    mean_anomaly_to_eccentric_anomaly (meanAnomaly scriptParams 0)
      scriptParams.e tolDefault = 0 ∧
    get_position_at_time scriptParams 0 = (scriptParams.a * (1 - scriptParams.e), 0) := by
  have h := position_at_time_zero scriptParams (by norm_num [scriptParams])
    (by norm_num [scriptParams])
  exact ⟨by norm_num [scriptParams], by norm_num [scriptParams], h.1, h.2.1⟩

/-- C6: for every time `t` the outputs equal the closed-form expressions
`x = a(cos E - e)`, `y = a·√(1-e²)·sin E`, and
`θ = 2·atan2(√(1+e)·sin(E/2), √(1-e)·cos(E/2))`, where `E` is the
eccentric anomaly computed from `M = 2π·t/T`. -/
theorem outputs_closed_form (p : OrbitParameters) (t : ℝ) :
    get_position_at_time p t =
      (p.a * (Real.cos (mean_anomaly_to_eccentric_anomaly
          (2 * Real.pi * t / p.T) p.e tolDefault) - p.e),
        p.a * Real.sqrt (1 - p.e ^ 2) * Real.sin (mean_anomaly_to_eccentric_anomaly
          (2 * Real.pi * t / p.T) p.e tolDefault)) ∧
    get_true_anomaly_at_time p t =
      2 * atan2
        (Real.sqrt (1 + p.e) * Real.sin (mean_anomaly_to_eccentric_anomaly
          (2 * Real.pi * t / p.T) p.e tolDefault / 2))
        (Real.sqrt (1 - p.e) * Real.cos (mean_anomaly_to_eccentric_anomaly
          (2 * Real.pi * t / p.T) p.e tolDefault / 2)) :=
  ⟨rfl, rfl⟩

/-- C8: the solver is total and bounded: on any input the loop performs at
most 100 Newton updates, and the returned eccentric anomaly is exactly the
iterate reached after that many updates. -/
theorem solver_terminates_within_budget (e M tol : ℝ) :
    keplerCount e M tol 100 M ≤ 100 ∧
    mean_anomaly_to_eccentric_anomaly M e tol =
      newtonIter e M (keplerCount e M tol 100 M) := by
  refine ⟨keplerCount_le e M tol 100 M, ?_⟩
  have h := loop_fst_eq_iter_count e M tol 100 0
  rw [show newtonIter e M 0 = M from rfl] at h
  rw [mean_anomaly_to_eccentric_anomaly, h, Nat.zero_add]

/-- C7: no error channel — when no Newton update within the 100-step
budget moves the iterate by less than `tol`, the function returns the
100th iterate unconditionally; the loop result has the same form `(E, flag)`
as in the converged case, with `flag = false` the only internal trace. -/
theorem exhaustion_returns_last_iterate (e M tol : ℝ)
    (h : ∀ i < 100, ¬ hits e M tol i) :
    mean_anomaly_to_eccentric_anomaly M e tol = newtonIter e M 100 ∧
    keplerLoopP e M tol 100 M = (newtonIter e M 100, false) := by
  have h0 := loop_no_hit e M tol 100 0 (fun i _ h2 => h i (by omega))
  rw [show newtonIter e M 0 = M from rfl] at h0
  rw [show (0 : ℕ) + 100 = 100 from rfl] at h0
  exact ⟨by rw [mean_anomaly_to_eccentric_anomaly, h0], h0⟩

/-- Witness for C7: with `tol = 0` the early-exit test `|E₁ - E| < 0`
never fires, so the loop runs all 100 updates and returns the last one. -/
theorem exhaustion_returns_last_iterate_witness :
    (∀ i < 100, ¬ hits 0 0 0 i) ∧
    mean_anomaly_to_eccentric_anomaly 0 0 0 = newtonIter 0 0 100 ∧
    keplerLoopP 0 0 0 100 0 = (newtonIter 0 0 100, false) := by
  have h : ∀ i < 100, ¬ hits 0 0 0 i := fun i _ => not_lt.mpr (abs_nonneg _)
  exact ⟨h, (exhaustion_returns_last_iterate 0 0 0 h).1,
    (exhaustion_returns_last_iterate 0 0 0 h).2⟩

/-- C5: the solver is Newton–Raphson on `f(E) = E - e·sin E - M` with
`f'(E) = 1 - e·cos E`: initial guess `E₀ = M`; update
`Eₙ₊₁ = Eₙ - f(Eₙ)/f'(Eₙ)`; it returns `Eₖ₊₁` for the first `k < 100`
whose update moves by less than `tol`, and the 100th iterate if no such
`k` exists. -/
theorem newton_raphson_algorithm (e M tol : ℝ) :
    newtonIter e M 0 = M ∧
    (∀ n, newtonIter e M (n + 1) =
      newtonIter e M n -
        (newtonIter e M n - e * Real.sin (newtonIter e M n) - M) /
          (1 - e * Real.cos (newtonIter e M n))) ∧
    (∀ k, k < 100 → (∀ i, i < k → ¬ hits e M tol i) → hits e M tol k →
      mean_anomaly_to_eccentric_anomaly M e tol = newtonIter e M (k + 1)) ∧
    ((∀ i, i < 100 → ¬ hits e M tol i) →
      mean_anomaly_to_eccentric_anomaly M e tol = newtonIter e M 100) := by
  refine ⟨rfl, fun n => rfl, ?_, ?_⟩
  · intro k hk hmin hhit
    have h := loop_hit e M tol 100 0 k (Nat.zero_le k) (by omega)
      (fun i _ h2 => hmin i h2) hhit
    rw [show newtonIter e M 0 = M from rfl] at h
    rw [mean_anomaly_to_eccentric_anomaly, h]
  · intro hno
    have h := loop_no_hit e M tol 100 0 (fun i _ h2 => hno i (by omega))
    rw [show newtonIter e M 0 = M from rfl] at h
    rw [mean_anomaly_to_eccentric_anomaly, h, Nat.zero_add]

/-- Witness for C5: at `e = 0`, `M = 0` the very first update already
moves by less than `1e-8`, so the solver returns the first iterate. -/
theorem newton_raphson_algorithm_witness :
    (0 : ℕ) < 100 ∧ hits 0 0 tolDefault 0 ∧
    mean_anomaly_to_eccentric_anomaly 0 0 tolDefault = newtonIter 0 0 (0 + 1) := by
  have hhit : hits 0 0 tolDefault 0 := by
    show |newtonIter 0 0 1 - newtonIter 0 0 0| < tolDefault
    rw [newtonIter_succ, show newtonIter 0 0 0 = (0 : ℝ) from rfl, newtonStep_zero]
    norm_num [tolDefault]
  exact ⟨by norm_num, hhit,
    (newton_raphson_algorithm 0 0 tolDefault).2.2.1 0 (by norm_num)
      (fun i hi => absurd hi (Nat.not_lt_zero i)) hhit⟩

theorem keplerLoopG_succ (e M tol E : ℝ) (n : ℕ) :
    keplerLoopG e M tol (n + 1) E =
      match newtonStepG e M E with
      | none => none
      | some E1 =>
        if |E1 - E| < tol then some (E1, true) else keplerLoopG e M tol n E1 := rfl

theorem newtonStepG_eq (e M E : ℝ) (h : 1 - e * Real.cos E ≠ 0) :
    newtonStepG e M E = some (newtonStep e M E) := by
  rw [newtonStepG, if_neg h]
  rfl

/-- C10: for `e ∈ [0,1)` the Newton denominator `1 - e·cos E` is bounded
below by `1 - e > 0`, so the division never divides by zero: the guarded
embedding's error branch is unreachable and the guarded loop always
returns the unguarded result. -/
theorem division_guard_unreachable (e : ℝ) (he0 : 0 ≤ e) (he1 : e < 1) :
    (∀ E : ℝ, 1 - e ≤ 1 - e * Real.cos E ∧ 1 - e * Real.cos E ≠ 0) ∧
    ∀ M tol E : ℝ, ∀ n : ℕ,
      keplerLoopG e M tol n E = some (keplerLoopP e M tol n E) := by
  have hden : ∀ E : ℝ, 1 - e ≤ 1 - e * Real.cos E ∧ 1 - e * Real.cos E ≠ 0 := by
    intro E
    have h1 : e * Real.cos E ≤ e * 1 :=
      mul_le_mul_of_nonneg_left (Real.cos_le_one E) he0
    exact ⟨by nlinarith, ne_of_gt (den_pos e E he0 he1)⟩
  refine ⟨hden, ?_⟩
  intro M tol E n
  induction n generalizing E with
  | zero => rfl
  | succ n ih =>
    rw [keplerLoopG_succ, newtonStepG_eq e M E (hden E).2, keplerLoopP_succ]
    show (if |newtonStep e M E - E| < tol then some (newtonStep e M E, true)
        else keplerLoopG e M tol n (newtonStep e M E)) = _
    by_cases hc : |newtonStep e M E - E| < tol
    · rw [if_pos hc, if_pos hc]
    · rw [if_neg hc, if_neg hc]
      exact ih (newtonStep e M E)

/-- Witness for C10: at `e = 0` the hypotheses hold and the guarded loop
agrees with the unguarded one. -/
theorem division_guard_unreachable_witness :
    (0 : ℝ) ≤ 0 ∧ (0 : ℝ) < 1 ∧
    keplerLoopG 0 0 1 1 0 = some (keplerLoopP 0 0 1 1 0) :=
  ⟨le_rfl, by norm_num,
    (division_guard_unreachable 0 le_rfl (by norm_num)).2 0 1 0 1⟩

/-! ### Shift by one period -/

theorem mean_anomaly_to_eccentric_anomaly_zero (e tol : ℝ) (htol : 0 < tol) :
    mean_anomaly_to_eccentric_anomaly 0 e tol = 0 := by
  rw [mean_anomaly_to_eccentric_anomaly, loop_at_zero e tol htol]

theorem atan2_zero_of_nonneg (x : ℝ) (hx : 0 ≤ x) : atan2 0 x = 0 := by
  rw [atan2]
  have h : (⟨x, 0⟩ : ℂ) = (x : ℂ) := rfl
  rw [h]
  exact Complex.arg_ofReal_of_nonneg hx

theorem atan2_zero_of_neg (x : ℝ) (hx : x < 0) : atan2 0 x = Real.pi := by
  rw [atan2]
  have h : (⟨x, 0⟩ : ℂ) = (x : ℂ) := rfl
  rw [h]
  exact Complex.arg_ofReal_of_neg hx

theorem newtonStep_shift (e M E : ℝ) :
    newtonStep e (M + 2 * Real.pi) (E + 2 * Real.pi) = newtonStep e M E + 2 * Real.pi := by
  rw [newtonStep, newtonStep, Real.sin_add_two_pi, Real.cos_add_two_pi]
  ring

theorem keplerLoopP_shift (e M tol : ℝ) :
    ∀ n E, keplerLoopP e (M + 2 * Real.pi) tol n (E + 2 * Real.pi)
      = ((keplerLoopP e M tol n E).1 + 2 * Real.pi, (keplerLoopP e M tol n E).2) := by
  intro n
  induction n with
  | zero => intro E; rfl
  | succ n ih =>
    intro E
    rw [keplerLoopP_succ, keplerLoopP_succ, newtonStep_shift]
    have hcond : |newtonStep e M E + 2 * Real.pi - (E + 2 * Real.pi)|
        = |newtonStep e M E - E| := by
      congr 1
      ring
    rw [hcond]
    by_cases hc : |newtonStep e M E - E| < tol
    · rw [if_pos hc, if_pos hc]
    · rw [if_neg hc, if_neg hc, ih (newtonStep e M E)]

theorem eccentric_anomaly_shift (e M tol : ℝ) :
    mean_anomaly_to_eccentric_anomaly (M + 2 * Real.pi) e tol
      = mean_anomaly_to_eccentric_anomaly M e tol + 2 * Real.pi := by
  rw [mean_anomaly_to_eccentric_anomaly, mean_anomaly_to_eccentric_anomaly,
    keplerLoopP_shift]

theorem meanAnomaly_add_period (p : OrbitParameters) (t : ℝ) (hT : p.T ≠ 0) :
    meanAnomaly p (t + p.T) = meanAnomaly p t + 2 * Real.pi := by
  rw [meanAnomaly, meanAnomaly]
  field_simp
  ring

theorem anomaly_vec_ne_zero (e E : ℝ) (he0 : 0 ≤ e) (he1 : e < 1) :
    (⟨Real.sqrt (1 - e) * Real.cos (E / 2),
      Real.sqrt (1 + e) * Real.sin (E / 2)⟩ : ℂ) ≠ 0 := by
  intro h
  have hre : Real.sqrt (1 - e) * Real.cos (E / 2) = 0 := congrArg Complex.re h
  have him : Real.sqrt (1 + e) * Real.sin (E / 2) = 0 := congrArg Complex.im h
  have h1 : Real.sqrt (1 - e) ≠ 0 := ne_of_gt (Real.sqrt_pos.mpr (by linarith))
  have h2 : Real.sqrt (1 + e) ≠ 0 := ne_of_gt (Real.sqrt_pos.mpr (by linarith))
  have hcos : Real.cos (E / 2) = 0 := by
    rcases mul_eq_zero.mp hre with h' | h'
    · exact absurd h' h1
    · exact h'
  have hsin : Real.sin (E / 2) = 0 := by
    rcases mul_eq_zero.mp him with h' | h'
    · exact absurd h' h2
    · exact h'
  have hpy := Real.sin_sq_add_cos_sq (E / 2)
  rw [hsin, hcos] at hpy
  norm_num at hpy

theorem true_anomaly_shift (p : OrbitParameters) (t : ℝ)
    (he0 : 0 ≤ p.e) (he1 : p.e < 1) (hT : 0 < p.T) :
    ∃ k : ℤ, get_true_anomaly_at_time p (t + p.T) - get_true_anomaly_at_time p t
      = 2 * Real.pi * k := by
  simp only [get_true_anomaly_at_time]
  rw [meanAnomaly_add_period p t (ne_of_gt hT), eccentric_anomaly_shift]
  set E := mean_anomaly_to_eccentric_anomaly (meanAnomaly p t) p.e tolDefault with hEdef
  rw [show (E + 2 * Real.pi) / 2 = E / 2 + Real.pi from by ring,
    Real.sin_add_pi, Real.cos_add_pi, mul_neg, mul_neg]
  set x := Real.sqrt (1 - p.e) * Real.cos (E / 2) with hx
  set y := Real.sqrt (1 + p.e) * Real.sin (E / 2) with hy
  have hz : (⟨x, y⟩ : ℂ) ≠ 0 := by
    rw [hx, hy]
    exact anomaly_vec_ne_zero p.e E he0 he1
  have hneg : (⟨-x, -y⟩ : ℂ) = -(⟨x, y⟩ : ℂ) := by
    apply Complex.ext <;> simp
  have hθ' : atan2 (-y) (-x) = Complex.arg (-(⟨x, y⟩ : ℂ)) := by
    rw [atan2, hneg]
  have hθ : atan2 y x = Complex.arg (⟨x, y⟩ : ℂ) := rfl
  rw [hθ', hθ]
  have hangle : ((Complex.arg (-(⟨x, y⟩ : ℂ)) : ℝ) : Real.Angle)
      = ((Complex.arg (⟨x, y⟩ : ℂ) + Real.pi : ℝ) : Real.Angle) := by
    rw [Real.Angle.coe_add]
    exact Complex.arg_neg_coe_angle hz
  obtain ⟨k, hk⟩ := Real.Angle.angle_eq_iff_two_pi_dvd_sub.mp hangle
  refine ⟨2 * k + 1, ?_⟩
  push_cast
  linarith [hk]

/-- C3 counterexample: with the script's parameters, solving at `t = 0`
and at `t = 0 + T` does not yield an identical true anomaly: `θ(T) = 2π`
while `θ(0) = 0`. -/
theorem true_anomaly_not_periodic_counterexample :
    get_true_anomaly_at_time scriptParams (0 + scriptParams.T) ≠
      get_true_anomaly_at_time scriptParams 0 := by
  have htol : (0 : ℝ) < tolDefault := by norm_num [tolDefault]
  have h0 : get_true_anomaly_at_time scriptParams 0 = 0 := by
    simp only [get_true_anomaly_at_time]
    rw [meanAnomaly_zero, mean_anomaly_to_eccentric_anomaly_zero _ _ htol]
    rw [show (0 : ℝ) / 2 = 0 from by norm_num, Real.sin_zero, Real.cos_zero,
      mul_zero, mul_one]
    rw [atan2_zero_of_nonneg _ (Real.sqrt_nonneg _), mul_zero]
  have hM8 : meanAnomaly scriptParams 8 = 2 * Real.pi := by
    have hT : scriptParams.T = 8 := by norm_num [scriptParams]
    rw [meanAnomaly, hT]
    ring
  have hstep : newtonStep 0.7 (2 * Real.pi) (2 * Real.pi) = 2 * Real.pi := by
    rw [newtonStep, Real.sin_two_pi, Real.cos_two_pi]
    have h : 2 * Real.pi - 0.7 * 0 - 2 * Real.pi = 0 := by ring
    rw [h, zero_div, sub_zero]
  have hE8 : mean_anomaly_to_eccentric_anomaly (2 * Real.pi) 0.7 tolDefault
      = 2 * Real.pi := by
    rw [mean_anomaly_to_eccentric_anomaly, show (100 : ℕ) = 99 + 1 from rfl,
      keplerLoopP_succ, hstep]
    have hc : |2 * Real.pi - 2 * Real.pi| < tolDefault := by
      rw [sub_self, abs_zero]
      exact htol
    rw [if_pos hc]
  have h8 : get_true_anomaly_at_time scriptParams (0 + scriptParams.T)
      = 2 * Real.pi := by
    rw [show (0 : ℝ) + scriptParams.T = 8 from by norm_num [scriptParams]]
    simp only [get_true_anomaly_at_time]
    rw [hM8, show scriptParams.e = (0.7 : ℝ) from rfl, hE8]
    rw [show 2 * Real.pi / 2 = Real.pi from by ring, Real.sin_pi, Real.cos_pi,
      mul_zero, mul_neg_one]
    have hneg : -Real.sqrt (1 - 0.7) < 0 :=
      neg_lt_zero.mpr (Real.sqrt_pos.mpr (by norm_num))
    rw [atan2_zero_of_neg _ hneg]
  rw [h0, h8]
  exact ne_of_gt Real.two_pi_pos

/-- C3 (amended): solving at `t` and at `t + T` yields an identical
position `(x, y)` exactly, and a true anomaly that agrees only modulo 2π:
`θ(t+T) - θ(t)` is an integer multiple of `2π` (it is not identical in
general — see the counterexample at `t = 0`). -/
theorem solver_periodicity (p : OrbitParameters) (t : ℝ)
    (he0 : 0 ≤ p.e) (he1 : p.e < 1) (hT : 0 < p.T) :
    get_position_at_time p (t + p.T) = get_position_at_time p t ∧
    ∃ k : ℤ, get_true_anomaly_at_time p (t + p.T) - get_true_anomaly_at_time p t
      = 2 * Real.pi * k := by
  constructor
  · simp only [get_position_at_time]
    rw [meanAnomaly_add_period p t (ne_of_gt hT), eccentric_anomaly_shift,
      Real.cos_add_two_pi, Real.sin_add_two_pi]
  · exact true_anomaly_shift p t he0 he1 hT

/-- Witness for the amended C3: the script's parameters at `t = 0`. -/
theorem solver_periodicity_witness :
    (0 : ℝ) ≤ scriptParams.e ∧ scriptParams.e < 1 ∧ (0 : ℝ) < scriptParams.T ∧
    (get_position_at_time scriptParams (0 + scriptParams.T)
        = get_position_at_time scriptParams 0 ∧
      ∃ k : ℤ, get_true_anomaly_at_time scriptParams (0 + scriptParams.T)
        - get_true_anomaly_at_time scriptParams 0 = 2 * Real.pi * k) :=
  ⟨by norm_num [scriptParams], by norm_num [scriptParams], by norm_num [scriptParams],
    solver_periodicity scriptParams 0 (by norm_num [scriptParams])
      (by norm_num [scriptParams]) (by norm_num [scriptParams])⟩

end

end Kepler
